import Mathlib

/-!
Verification of the malloc_server service (src/mem/malloc_server.c).

The server state and the command handler are embedded shallowly:
lines and responses are lists of characters, buffers are lists of byte
values, and the registry is the linked list of allocation nodes with
the most recently created entry at the head, exactly as in the C code.
Machine arithmetic on size_t values is modelled as Nat with an explicit
reduction modulo 2^64 where the C code can overflow.
-/

namespace MallocServer

/-- 2^64, the modulus of size_t arithmetic on the reference platform. -/
def sizeTMod : Nat := 18446744073709551616

/-! ## Base64 codec (base64_encode, b64val, base64_decode) -/

/-- The alphabet table b64chars from the source. -/
def b64chars : List Char :=
  "ABCDEFGHIJKLMNOPQRSTUVWXYZabcdefghijklmnopqrstuvwxyz0123456789+/".data

/-- Indexing into b64chars; the C code only indexes with values below 64. -/
def b64char (i : Nat) : Char := b64chars.getD i '?'

/-- b64val from the source: alphabet value of a character, -1 if invalid. -/
def b64val (c : Char) : Int :=
  if 'A' ≤ c ∧ c ≤ 'Z' then (c.toNat : Int) - 65
  else if 'a' ≤ c ∧ c ≤ 'z' then (c.toNat : Int) - 97 + 26
  else if '0' ≤ c ∧ c ≤ '9' then (c.toNat : Int) - 48 + 52
  else if c = '+' then 62
  else if c = '/' then 63
  else -1

/-- base64_encode from the source: full 3-byte groups, then a remainder of
one or two bytes padded with one or two `=` characters. -/
def base64_encode : List Nat → List Char
  | b0 :: b1 :: b2 :: rest =>
      let triple := (b0 <<< 16) ||| (b1 <<< 8) ||| b2
      b64char ((triple >>> 18) &&& 63) :: b64char ((triple >>> 12) &&& 63) ::
        b64char ((triple >>> 6) &&& 63) :: b64char (triple &&& 63) ::
        base64_encode rest
  | [b0, b1] =>
      let triple := (b0 <<< 16) ||| (b1 <<< 8)
      [b64char ((triple >>> 18) &&& 63), b64char ((triple >>> 12) &&& 63),
        b64char ((triple >>> 6) &&& 63), '=']
  | [b0] =>
      let triple := b0 <<< 16
      [b64char ((triple >>> 18) &&& 63), b64char ((triple >>> 12) &&& 63), '=', '=']
  | [] => []

/-- The per-group loop of base64_decode from the source.  A `=` in position
2 or 3 of a group yields the sentinel -2, an invalid character yields -1,
and the guard rejects the group exactly when v0 < 0, v1 < 0, v2 < -1 or
v3 < -1, as written at line 158 of the source. -/
def base64_decode_groups : List Char → Option (List Nat)
  | [] => some []
  | c0 :: c1 :: c2 :: c3 :: rest =>
      let v0 := b64val c0
      let v1 := b64val c1
      let v2 : Int := if c2 = '=' then -2 else b64val c2
      let v3 : Int := if c3 = '=' then -2 else b64val c3
      if v0 < 0 ∨ v1 < 0 ∨ v2 < -1 ∨ v3 < -1 then none
      else
        let triple : Nat := (v0.toNat <<< 18) ||| (v1.toNat <<< 12) |||
          ((if -1 < v2 then v2.toNat else 0) <<< 6) |||
          (if -1 < v3 then v3.toNat else 0)
        let bytes := ((triple >>> 16) &&& 255) ::
          ((if -1 < v2 then [(triple >>> 8) &&& 255] else []) ++
           (if -1 < v3 then [triple &&& 255] else []))
        (base64_decode_groups rest).map (bytes ++ ·)
  | _ => none

/-- base64_decode from the source: the length must be a multiple of 4,
then the input is consumed in groups of four characters. -/
def base64_decode (s : List Char) : Option (List Nat) :=
  if s.length % 4 = 0 then base64_decode_groups s else none

/-! ## Allocation registry (AllocNode, find_alloc, add_alloc, remove_alloc) -/

/-- An allocation registry node: name, recorded size, and the owned buffer.
The buffer of a node of size s holds max(s,1) bytes because add_alloc
calls malloc(size ? size : 1).  Buffer contents at creation are modelled
as zero bytes. -/
structure AllocNode where
  name : List Char
  size : Nat
  buf  : List Nat
deriving DecidableEq

/-- The registry: the alloc_head linked list, most recent entry first. -/
abbrev RegState := List AllocNode

/-- find_alloc from the source: first node with a matching name. -/
def find_alloc (name : List Char) : RegState → Option AllocNode
  | [] => none
  | n :: rest => if n.name = name then some n else find_alloc name rest

/-- add_alloc from the source: fails when the name is already present,
otherwise prepends a fresh node whose buffer has max(size,1) bytes.
The nomem failure of malloc is not modelled: allocation always succeeds. -/
def add_alloc (name : List Char) (size : Nat) (st : RegState) : Option RegState :=
  match find_alloc name st with
  | some _ => none
  | none => some (⟨name, size, List.replicate (if size = 0 then 1 else size) 0⟩ :: st)

/-- remove_alloc from the source: unlinks the first node with a matching
name, returning none when no node matches. -/
def remove_alloc (name : List Char) : RegState → Option RegState
  | [] => none
  | n :: rest =>
      if n.name = name then some rest
      else (remove_alloc name rest).map (n :: ·)

/-- In-place buffer mutation through the pointer returned by find_alloc:
the buffer of the first node with a matching name is replaced. -/
def updateBuf (name : List Char) (f : List Nat → List Nat) : RegState → RegState
  | [] => []
  | n :: rest =>
      if n.name = name then ⟨n.name, n.size, f n.buf⟩ :: rest
      else n :: updateBuf name f rest

/-! ## Number parsing (strtoull with base 10) -/

/-- The characters accepted by isspace in the C locale. -/
def isSpaceC (c : Char) : Bool :=
  c = ' ' || c = '\t' || c = '\n' || c = '\x0b' || c = '\x0c' || c = '\r'

/-- Value of a string of decimal digits. -/
def digitsToNat (ds : List Char) : Nat :=
  ds.foldl (fun a c => a * 10 + (c.toNat - 48)) 0

/-- strtoull(s, NULL, 10): skip leading whitespace, accept an optional
sign, consume the longest prefix of decimal digits (no digits gives 0),
saturate at ULLONG_MAX on overflow, and negate modulo 2^64 after `-`. -/
def strtoull10 (s : List Char) : Nat :=
  let s1 := s.dropWhile (fun c => isSpaceC c)
  match s1 with
  | '-' :: r =>
      let v := min (digitsToNat (r.takeWhile Char.isDigit)) (sizeTMod - 1)
      (sizeTMod - v) % sizeTMod
  | '+' :: r => min (digitsToNat (r.takeWhile Char.isDigit)) (sizeTMod - 1)
  | r => min (digitsToNat (r.takeWhile Char.isDigit)) (sizeTMod - 1)

/-! ## Tokenization (strtok with the single delimiter character space) -/

/-- Accumulator-based tokenizer equivalent to repeated strtok(.., " "):
runs of spaces separate tokens, leading and trailing runs are dropped. -/
def tokAux : List Char → List Char → List (List Char)
  | [], acc => if acc = [] then [] else [acc.reverse]
  | c :: rest, acc =>
      if c = ' ' then
        if acc = [] then tokAux rest []
        else acc.reverse :: tokAux rest []
      else tokAux rest (c :: acc)

/-- Whitespace tokenization of a request line, as strtok performs it. -/
def tokenize (l : List Char) : List (List Char) := tokAux l []

/-! ## Buffer access -/

/-- The len bytes starting at off, as memcpy out of the buffer reads them;
positions beyond the buffer (out-of-bounds reads in the C code) are
modelled as zero bytes. -/
def readBytes (buf : List Nat) (off len : Nat) : List Nat :=
  (List.range len).map (fun i => buf.getD (off + i) 0)

/-- memcpy(buf + off, data, data.length) restricted to the modelled
buffer: bytes inside the buffer take their new value, the buffer length
never changes. -/
def writeBytes (buf : List Nat) (off : Nat) (data : List Nat) : List Nat :=
  (List.range buf.length).map
    (fun i => if off ≤ i ∧ i < off + data.length then data.getD (i - off) 0
              else buf.getD i 0)

/-! ## Command handlers (handle_command from the source) -/

/-- The ALLOC branch of handle_command. -/
def handleAlloc (st : RegState) (args : List (List Char)) : RegState × List Char :=
  match args with
  | name :: size_s :: _ =>
      let size := strtoull10 size_s
      match add_alloc name size st with
      | some st2 => (st2, "OK".data)
      | none => (st, "ERR already_exists".data)
  | _ => (st, "ERR ALLOC usage".data)

/-- The WRITE branch of handle_command.  The bounds check computes
offset + data_len in size_t arithmetic, hence modulo 2^64. -/
def handleWrite (st : RegState) (args : List (List Char)) : RegState × List Char :=
  match args with
  | name :: offset_s :: b64 :: _ =>
      match find_alloc name st with
      | none => (st, "ERR not_found".data)
      | some n =>
          let offset := strtoull10 offset_s
          match base64_decode b64 with
          | none => (st, "ERR bad_base64".data)
          | some data =>
              if n.size < (offset + data.length) % sizeTMod then
                (st, "ERR out_of_bounds".data)
              else
                (updateBuf name (fun b => writeBytes b offset data) st, "OK".data)
  | _ => (st, "ERR WRITE usage".data)

/-- The READ branch of handle_command.  The bounds check computes
offset + len in size_t arithmetic, hence modulo 2^64. -/
def handleRead (st : RegState) (args : List (List Char)) : RegState × List Char :=
  match args with
  | name :: offset_s :: len_s :: _ =>
      match find_alloc name st with
      | none => (st, "ERR not_found".data)
      | some n =>
          let offset := strtoull10 offset_s
          let len := strtoull10 len_s
          if n.size < (offset + len) % sizeTMod then
            (st, "ERR out_of_bounds".data)
          else
            (st, "OK ".data ++ base64_encode (readBytes n.buf offset len))
  | _ => (st, "ERR READ usage".data)

/-- The FREE branch of handle_command. -/
def handleFree (st : RegState) (args : List (List Char)) : RegState × List Char :=
  match args with
  | name :: _ =>
      match remove_alloc name st with
      | some st2 => (st2, "OK".data)
      | none => (st, "ERR not_found".data)
  | _ => (st, "ERR FREE usage".data)

/-- The text snprintf produces for one registry node: name, colon, the
decimal size, and a trailing semicolon. -/
def pairStr (n : AllocNode) : List Char :=
  n.name ++ ':' :: (toString n.size).data ++ [';']

/-- The LIST output loop from the source: each node appends its pair text
truncated to the space left in the 8192-byte buffer (snprintf is given
8191 - pos bytes of room, hence writes at most 8190 - pos characters),
pos advances by the untruncated length (the snprintf return value), and
the loop stops once pos + 100 reaches the buffer size. -/
def listOut : RegState → Nat → List Char → List Char
  | [], _, out => out
  | n :: rest, pos, out =>
      let s := pairStr n
      let out2 := out ++ s.take (8190 - pos)
      let pos2 := pos + s.length
      if 8192 ≤ pos2 + 100 then out2 else listOut rest pos2 out2

/-- handle_command from the source: tokenize the line, dispatch on the
first token, answer ERR empty when there is no token at all. -/
def handleCommand (st : RegState) (line : List Char) : RegState × List Char :=
  match tokenize line with
  | [] => (st, "ERR empty".data)
  | tok :: args =>
      if tok = "ALLOC".data then handleAlloc st args
      else if tok = "WRITE".data then handleWrite st args
      else if tok = "READ".data then handleRead st args
      else if tok = "FREE".data then handleFree st args
      else if tok = "LIST".data then (st, "OK ".data ++ listOut st 0 [])
      else if tok = "EXIT".data then (st, "OK bye".data)
      else (st, "ERR unknown_command".data)

/-- The per-connection session loop of main: every received line is
handed to handle_command and answered; the loop stops only when the
input stream ends, never because of a particular command. -/
def session : RegState → List (List Char) → RegState × List (List Char)
  | st, [] => (st, [])
  | st, l :: rest =>
      let r := handleCommand st l
      let rs := session r.1 rest
      (rs.1, r.2 :: rs.2)

/-- The concatenation of the pair texts of all live entries in registry
order, the output the LIST loop produces when nothing is truncated. -/
def concatPairs : RegState → List Char
  | [] => []
  | n :: rest => pairStr n ++ concatPairs rest

/-- Rendering of the wording of claim C6: the name:size pairs of the live
entries joined by a single `;` separator (so without a trailing
separator), after OK and one space. -/
def listSpecResponse (st : RegState) : List Char :=
  "OK ".data ++ List.intercalate ";".data (st.map (fun n => n.name ++ ':' :: (toString n.size).data))

/-- The five request lines of the scenario in claim C3. -/
def scenarioLines : List (List Char) :=
  ["ALLOC foo 10", "WRITE foo 0 aGVsbG8=", "READ foo 0 5", "FREE foo",
    "READ foo 0 5"].map String.data

/-- The responses the server gives to the scenario of claim C3, starting
from the empty registry. -/
def scenarioResponses : List (List Char) := (session [] scenarioLines).2

/-- A registry holding one entry named a of size 10, used as the live
entry of several concrete evaluations. -/
def regA : RegState := [⟨['a'], 10, List.replicate 10 0⟩]

/-! ## Tokenizer lemmas -/

theorem tokAux_append_no_space (t : List Char) (h : ' ' ∉ t) :
    ∀ rest acc, tokAux (t ++ rest) acc = tokAux rest (t.reverse ++ acc) := by
  induction t with
  | nil => intro rest acc; simp
  | cons c t ih =>
    intro rest acc
    have hc : ¬ c = ' ' := fun hc => h (hc ▸ List.mem_cons_self c t)
    have ht : ' ' ∉ t := fun hm => h (List.mem_cons_of_mem _ hm)
    simp only [List.cons_append, tokAux, if_neg hc, List.append_eq]
    rw [ih ht rest (c :: acc)]
    simp

theorem tokAux_space (rest acc : List Char) (h : ¬ acc = []) :
    tokAux (' ' :: rest) acc = acc.reverse :: tokAux rest [] := by
  simp [tokAux, h]

theorem tokAux_nil_ne (acc : List Char) (h : ¬ acc = []) :
    tokAux [] acc = [acc.reverse] := by
  simp [tokAux, h]

theorem tokAux_single (t : List Char) (ht : t ≠ []) (hts : ' ' ∉ t) :
    tokAux t [] = [t] := by
  have h := tokAux_append_no_space t hts [] []
  rw [List.append_nil, List.append_nil] at h
  rw [h, tokAux_nil_ne _ (by simpa using ht), List.reverse_reverse]

theorem tokenize_cmd1 (cmd name : List Char)
    (hc : cmd ≠ []) (hcs : ' ' ∉ cmd) (hn : name ≠ []) (hns : ' ' ∉ name) :
    tokenize (cmd ++ ' ' :: name) = [cmd, name] := by
  unfold tokenize
  rw [tokAux_append_no_space cmd hcs, List.append_nil,
    tokAux_space _ _ (by simpa using hc), List.reverse_reverse,
    tokAux_single name hn hns]

theorem tokenize_cmd2 (cmd name arg : List Char)
    (hc : cmd ≠ []) (hcs : ' ' ∉ cmd) (hn : name ≠ []) (hns : ' ' ∉ name)
    (ha : arg ≠ []) (has : ' ' ∉ arg) :
    tokenize (cmd ++ ' ' :: name ++ ' ' :: arg) = [cmd, name, arg] := by
  unfold tokenize
  rw [List.append_assoc, List.cons_append]
  rw [tokAux_append_no_space cmd hcs, List.append_nil,
    tokAux_space _ _ (by simpa using hc), List.reverse_reverse,
    tokAux_append_no_space name hns, List.append_nil,
    tokAux_space _ _ (by simpa using hn), List.reverse_reverse,
    tokAux_single arg ha has]

theorem tokAux_all_spaces : ∀ l : List Char, (∀ c ∈ l, c = ' ') → tokAux l [] = [] := by
  intro l h
  induction l with
  | nil => rfl
  | cons c rest ih =>
    have hc : c = ' ' := h c (List.mem_cons_self c rest)
    simp only [tokAux, if_pos hc]
    exact ih (fun d hd => h d (List.mem_cons_of_mem _ hd))

/-! ## Registry lemmas -/

theorem find_alloc_eq_none_iff (name : List Char) (st : RegState) :
    find_alloc name st = none ↔ ∀ n ∈ st, n.name ≠ name := by
  induction st with
  | nil => simp [find_alloc]
  | cons n rest ih =>
    by_cases h : n.name = name
    · simp [find_alloc, h]
    · simp only [find_alloc, if_neg h, List.mem_cons]
      rw [ih]
      constructor
      · rintro hr m (rfl | hm)
        · exact h
        · exact hr m hm
      · intro hall m hm
        exact hall m (Or.inr hm)

theorem remove_alloc_eq_none_iff (name : List Char) (st : RegState) :
    remove_alloc name st = none ↔ ∀ n ∈ st, n.name ≠ name := by
  induction st with
  | nil => simp [remove_alloc]
  | cons n rest ih =>
    by_cases h : n.name = name
    · simp [remove_alloc, h]
    · simp only [remove_alloc, if_neg h, Option.map_eq_none', List.mem_cons]
      rw [ih]
      constructor
      · rintro hr m (rfl | hm)
        · exact h
        · exact hr m hm
      · intro hall m hm
        exact hall m (Or.inr hm)

theorem remove_alloc_sublist (name : List Char) :
    ∀ (st st2 : RegState), remove_alloc name st = some st2 → List.Sublist st2 st := by
  intro st
  induction st with
  | nil => intro st2 h; simp [remove_alloc] at h
  | cons n rest ih =>
    intro st2 h
    by_cases hm : n.name = name
    · simp only [remove_alloc, if_pos hm, Option.some.injEq] at h
      exact h ▸ List.sublist_cons_self n rest
    · simp only [remove_alloc, if_neg hm, Option.map_eq_some'] at h
      obtain ⟨r2, hr2, rfl⟩ := h
      exact (ih r2 hr2).cons₂ n

theorem remove_alloc_find_none (name : List Char) :
    ∀ (st st2 : RegState), (st.map AllocNode.name).Nodup →
      remove_alloc name st = some st2 → find_alloc name st2 = none := by
  intro st
  induction st with
  | nil => intro st2 _ h; simp [remove_alloc] at h
  | cons n rest ih =>
    intro st2 hnd h
    rw [List.map_cons, List.nodup_cons] at hnd
    by_cases hm : n.name = name
    · simp only [remove_alloc, if_pos hm, Option.some.injEq] at h
      subst h
      rw [find_alloc_eq_none_iff]
      intro m hmem heq
      exact hnd.1 (hm ▸ heq ▸ List.mem_map_of_mem AllocNode.name hmem)
    · simp only [remove_alloc, if_neg hm, Option.map_eq_some'] at h
      obtain ⟨r2, hr2, rfl⟩ := h
      simp only [find_alloc, if_neg hm]
      exact ih r2 hnd.2 hr2

theorem add_alloc_eq_some (name : List Char) (size : Nat) (st : RegState)
    (h : find_alloc name st = none) :
    add_alloc name size st =
      some (⟨name, size, List.replicate (if size = 0 then 1 else size) 0⟩ :: st) := by
  unfold add_alloc
  rw [h]

theorem add_alloc_eq_none (name : List Char) (size : Nat) (st : RegState) (e : AllocNode)
    (h : find_alloc name st = some e) : add_alloc name size st = none := by
  unfold add_alloc
  rw [h]

theorem updateBuf_map_name (name : List Char) (f : List Nat → List Nat) :
    ∀ st : RegState, (updateBuf name f st).map AllocNode.name = st.map AllocNode.name := by
  intro st
  induction st with
  | nil => rfl
  | cons n rest ih => by_cases h : n.name = name <;> simp [updateBuf, h, ih]

/-! ## Handler lemmas -/

theorem handleAlloc_already (st : RegState) (name size_s : List Char)
    (rest : List (List Char)) (e : AllocNode) (h : find_alloc name st = some e) :
    handleAlloc st (name :: size_s :: rest) = (st, "ERR already_exists".data) := by
  simp only [handleAlloc, add_alloc_eq_none name (strtoull10 size_s) st e h]

theorem handleAlloc_fresh (st : RegState) (name size_s : List Char)
    (rest : List (List Char)) (h : find_alloc name st = none) :
    handleAlloc st (name :: size_s :: rest) =
      (⟨name, strtoull10 size_s,
        List.replicate (if strtoull10 size_s = 0 then 1 else strtoull10 size_s) 0⟩ :: st,
       "OK".data) := by
  simp only [handleAlloc, add_alloc_eq_some name (strtoull10 size_s) st h]

theorem handleAlloc_nodup (st : RegState) (args : List (List Char))
    (h : (st.map AllocNode.name).Nodup) :
    (((handleAlloc st args).1).map AllocNode.name).Nodup := by
  match args with
  | [] => exact h
  | [name] => exact h
  | name :: size_s :: rest =>
    cases hf : find_alloc name st with
    | none =>
      rw [handleAlloc_fresh st name size_s rest hf]
      rw [List.map_cons, List.nodup_cons]
      refine ⟨?_, h⟩
      rw [find_alloc_eq_none_iff] at hf
      intro hmem
      obtain ⟨m, hmem, heq⟩ := List.mem_map.mp hmem
      exact hf m hmem heq
    | some e =>
      rw [handleAlloc_already st name size_s rest e hf]
      exact h

theorem handleWrite_map_name (st : RegState) (args : List (List Char)) :
    ((handleWrite st args).1).map AllocNode.name = st.map AllocNode.name := by
  match args with
  | [] => rfl
  | [_] => rfl
  | [_, _] => rfl
  | name :: offset_s :: b64 :: rest =>
    simp only [handleWrite]
    split
    · rfl
    · split
      · rfl
      · split
        · rfl
        · exact updateBuf_map_name name _ st

theorem handleRead_fst (st : RegState) (args : List (List Char)) :
    (handleRead st args).1 = st := by
  match args with
  | [] => rfl
  | [_] => rfl
  | [_, _] => rfl
  | name :: offset_s :: len_s :: rest =>
    simp only [handleRead]
    split
    · rfl
    · split <;> rfl

theorem handleFree_nodup (st : RegState) (args : List (List Char))
    (h : (st.map AllocNode.name).Nodup) :
    (((handleFree st args).1).map AllocNode.name).Nodup := by
  match args with
  | [] => exact h
  | name :: rest =>
    simp only [handleFree]
    split
    · rename_i st2 hr
      exact List.Nodup.sublist
        (List.Sublist.map AllocNode.name (remove_alloc_sublist name st st2 hr)) h
    · exact h

/-- The registry invariant of the spec: at most one live entry per name,
stated as distinctness of the name column of the registry list. -/
abbrev namesDistinct (st : RegState) : Prop := (st.map AllocNode.name).Nodup

theorem handleCommand_nodup (st : RegState) (line : List Char)
    (h : namesDistinct st) : namesDistinct (handleCommand st line).1 := by
  unfold namesDistinct at *
  unfold handleCommand
  cases htok : tokenize line with
  | nil => exact h
  | cons tok args =>
    by_cases h1 : tok = "ALLOC".data
    · simp only [if_pos h1]
      exact handleAlloc_nodup st args h
    · simp only [if_neg h1]
      by_cases h2 : tok = "WRITE".data
      · simp only [if_pos h2]
        rw [handleWrite_map_name]
        exact h
      · simp only [if_neg h2]
        by_cases h3 : tok = "READ".data
        · simp only [if_pos h3]
          rw [handleRead_fst]
          exact h
        · simp only [if_neg h3]
          by_cases h4 : tok = "FREE".data
          · simp only [if_pos h4]
            exact handleFree_nodup st args h
          · simp only [if_neg h4]
            by_cases h5 : tok = "LIST".data
            · simp only [if_pos h5]
              exact h
            · simp only [if_neg h5]
              by_cases h6 : tok = "EXIT".data
              · simp only [if_pos h6]
                exact h
              · simp only [if_neg h6]
                exact h

theorem handleFree_some (st st2 : RegState) (name : List Char)
    (rest : List (List Char)) (h : remove_alloc name st = some st2) :
    handleFree st (name :: rest) = (st2, "OK".data) := by
  simp only [handleFree, h]

theorem handleFree_none (st : RegState) (name : List Char)
    (rest : List (List Char)) (h : remove_alloc name st = none) :
    handleFree st (name :: rest) = (st, "ERR not_found".data) := by
  simp only [handleFree, h]

theorem handleAlloc_find (st : RegState) (name size_s : List Char)
    (rest : List (List Char)) :
    ∃ e, find_alloc name ((handleAlloc st (name :: size_s :: rest)).1) = some e := by
  cases hf : find_alloc name st with
  | none =>
    rw [handleAlloc_fresh st name size_s rest hf]
    refine ⟨⟨name, strtoull10 size_s,
      List.replicate (if strtoull10 size_s = 0 then 1 else strtoull10 size_s) 0⟩, ?_⟩
    simp [find_alloc]
  | some e =>
    rw [handleAlloc_already st name size_s rest e hf]
    exact ⟨e, hf⟩

theorem handleCommand_alloc_line (st : RegState) (name size_s : List Char)
    (hn : name ≠ []) (hns : ' ' ∉ name) (ha : size_s ≠ []) (has : ' ' ∉ size_s) :
    handleCommand st ("ALLOC".data ++ ' ' :: name ++ ' ' :: size_s) =
      handleAlloc st [name, size_s] := by
  unfold handleCommand
  rw [tokenize_cmd2 "ALLOC".data name size_s (by decide) (by decide) hn hns ha has]
  rfl

theorem handleCommand_free_line (st : RegState) (name : List Char)
    (hn : name ≠ []) (hns : ' ' ∉ name) :
    handleCommand st ("FREE".data ++ ' ' :: name) = handleFree st [name] := by
  unfold handleCommand
  rw [tokenize_cmd1 "FREE".data name (by decide) (by decide) hn hns]
  rfl

/-! ## LIST output -/

theorem listOut_of_fits :
    ∀ (st : RegState) (pos : Nat) (out : List Char),
      pos + (concatPairs st).length ≤ 8091 →
      listOut st pos out = out ++ concatPairs st := by
  intro st
  induction st with
  | nil => intro pos out _; simp [listOut, concatPairs]
  | cons n rest ih =>
    intro pos out h
    simp only [concatPairs, List.length_append] at h
    simp only [listOut, concatPairs]
    rw [List.take_of_length_le (by omega), if_neg (by omega),
      ih (pos + (pairStr n).length) (out ++ pairStr n) (by omega)]
    simp

/-! ## Claim theorems -/

/-- Claim C1: the claim requires that whenever the mathematical sum
offset + length exceeds the size of the live entry, WRITE and READ are
answered ERR out_of_bounds and the buffer is unchanged, the bounds check
not being bypassed by fixed-width wrap-around.  The code computes the
sum in size_t arithmetic: on the entry a of size 10, with offset
2^64 - 1 and length 3, the wrapped sum is 2, the check passes, and READ
answers OK (reading out of bounds) while WRITE answers OK (copying out
of bounds), not ERR out_of_bounds. -/
theorem claim_C1_overflow_bypasses_bounds_check :
    strtoull10 "18446744073709551615".data = 18446744073709551615 ∧
    10 < 18446744073709551615 + 3 ∧
    (18446744073709551615 + 3) % sizeTMod = 2 ∧
    ¬ (handleCommand regA "READ a 18446744073709551615 3".data).2 =
        "ERR out_of_bounds".data ∧
    List.take 2 (handleCommand regA "READ a 18446744073709551615 3".data).2 =
      "OK".data ∧
    (handleCommand regA "WRITE a 18446744073709551615 QQQQ".data).2 = "OK".data := by
  decide

/-- Claim C2: the claim requires that a WRITE payload containing a
character outside the base64 alphabet and the padding set is answered
ERR bad_base64 with the buffer unmutated.  The guard of the decoder
passes the invalid-character sentinel -1 in group positions 2 and 3, so
the payload /B!! (with ! outside the alphabet and not =) decodes to the
single byte 252 and WRITE a 0 /B!! is answered OK, mutating the first
buffer byte of the entry a from 0 to 252. -/
theorem claim_C2_invalid_char_accepted :
    b64val '!' = -1 ∧ ¬ '!' = '=' ∧
    handleCommand regA "WRITE a 0 /B!!".data =
      ([⟨['a'], 10, 252 :: List.replicate 9 0⟩], "OK".data) := by
  decide

/-- Claim C3: the claim states an exact WRITE/READ round trip and the
concrete scenario ALLOC foo 10; WRITE foo 0 aGVsbG8=; READ foo 0 5;
FREE foo; READ foo 0 5 with responses OK; OK; OK aGVsbG8=; OK;
ERR not_found.  Running the scenario from the empty registry, the WRITE
is answered ERR bad_base64 (the decoder rejects the = padding that its
own encoder produced), so the second response diverges from the claim
while the others keep their claimed shape. -/
theorem claim_C3_scenario_diverges :
    scenarioResponses.length = 5 ∧
    scenarioResponses.getD 0 [] = "OK".data ∧
    scenarioResponses.getD 1 [] = "ERR bad_base64".data ∧
    List.take 3 (scenarioResponses.getD 2 []) = "OK ".data ∧
    scenarioResponses.getD 3 [] = "OK".data ∧
    scenarioResponses.getD 4 [] = "ERR not_found".data ∧
    ¬ scenarioResponses.getD 1 [] = "OK".data := by
  decide

/-- Claim C4: the claim states that decoding the output of the encoder
returns the original bytes, also when the output carries one or two =
pads.  The unpadded case (length a multiple of 3) round-trips, but every
padded encoder output is rejected by the decoder, whose guard rejects
the = pad sentinel -2: both the two-pad and the one-pad case decode to
failure. -/
theorem claim_C4_roundtrip_fails_on_padding :
    base64_decode (base64_encode [1, 2, 3]) = some [1, 2, 3] ∧
    base64_encode [104, 101, 108, 108, 111] = "aGVsbG8=".data ∧
    base64_decode "aGVsbG8=".data = none ∧
    base64_encode [0] = "AA==".data ∧
    base64_decode "AA==".data = none := by
  decide

/-- Claim C5: the registry holds at most one live entry per name: the
empty registry has distinct names, every command preserves distinctness,
and an ALLOC of a name immediately followed by a second ALLOC of the
same name is answered ERR already_exists on the second call, which
leaves the registry unchanged. -/
theorem claim_C5_unique_names :
    namesDistinct [] ∧
    (∀ (st : RegState) (line : List Char),
      namesDistinct st → namesDistinct (handleCommand st line).1) ∧
    (∀ (st : RegState) (name size_s : List Char),
      name ≠ [] → ' ' ∉ name → size_s ≠ [] → ' ' ∉ size_s →
      handleCommand ((handleCommand st ("ALLOC".data ++ ' ' :: name ++ ' ' :: size_s)).1)
          ("ALLOC".data ++ ' ' :: name ++ ' ' :: size_s) =
        ((handleCommand st ("ALLOC".data ++ ' ' :: name ++ ' ' :: size_s)).1,
         "ERR already_exists".data)) := by
  refine ⟨List.nodup_nil, fun st line h => handleCommand_nodup st line h, ?_⟩
  intro st name size_s hn hns hs hss
  rw [handleCommand_alloc_line st name size_s hn hns hs hss,
      handleCommand_alloc_line _ name size_s hn hns hs hss]
  obtain ⟨e, he⟩ := handleAlloc_find st name size_s []
  exact handleAlloc_already _ name size_s [] e he

/-- Witness for claim C5: the double ALLOC of foo with size 10, from the
empty registry. -/
theorem claim_C5_unique_names_witness :
    handleCommand
        ((handleCommand [] ("ALLOC".data ++ ' ' :: "foo".data ++ ' ' :: "10".data)).1)
        ("ALLOC".data ++ ' ' :: "foo".data ++ ' ' :: "10".data) =
      ((handleCommand [] ("ALLOC".data ++ ' ' :: "foo".data ++ ' ' :: "10".data)).1,
       "ERR already_exists".data) :=
  claim_C5_unique_names.2.2 [] "foo".data "10".data
    (by decide) (by decide) (by decide) (by decide)

/-- Claim C6 counterexample: with one live entry foo of size 10, the
LIST response of the code is OK foo:10; with a trailing semicolon after
the pair, while the claimed response, the pairs joined by the separator
`;`, is OK foo:10 without it. -/
theorem claim_C6_counterexample :
    (handleCommand [⟨"foo".data, 10, List.replicate 10 0⟩] "LIST".data).2 =
      "OK foo:10;".data ∧
    listSpecResponse [⟨"foo".data, 10, List.replicate 10 0⟩] = "OK foo:10".data ∧
    ¬ (handleCommand [⟨"foo".data, 10, List.replicate 10 0⟩] "LIST".data).2 =
        listSpecResponse [⟨"foo".data, 10, List.replicate 10 0⟩] := by
  decide

/-- Claim C6 amended: in every registry state whose total pair text fits
the send buffer of the code, LIST is answered OK followed by one space
and the concatenation of name:size; for every live entry, each pair
carrying a trailing semicolon, most recently created first, freed
entries absent; LIST never fails and never changes the registry. -/
theorem claim_C6_list_output :
    ∀ st : RegState, (concatPairs st).length ≤ 8091 →
      handleCommand st "LIST".data = (st, "OK ".data ++ concatPairs st) := by
  intro st h
  have hred : handleCommand st "LIST".data = (st, "OK ".data ++ listOut st 0 []) := rfl
  rw [hred, listOut_of_fits st 0 [] (by omega)]
  simp

/-- Witness for claim C6 amended: the registry with the single entry
foo of size 10. -/
theorem claim_C6_list_output_witness :
    handleCommand [⟨"foo".data, 10, List.replicate 10 0⟩] "LIST".data =
      ([⟨"foo".data, 10, List.replicate 10 0⟩],
       "OK ".data ++ concatPairs [⟨"foo".data, 10, List.replicate 10 0⟩]) :=
  claim_C6_list_output [⟨"foo".data, 10, List.replicate 10 0⟩] (by decide)

/-- Claim C7: EXIT is answered OK bye and never ends the session: the
handler leaves the registry unchanged on EXIT, the session answers every
input line with exactly one response (so it never stops at a command and
ends exactly when the input stream is exhausted), and a session whose
first line is EXIT continues with the remaining lines unchanged. -/
theorem claim_C7_exit_keeps_session :
    (∀ st : RegState, handleCommand st "EXIT".data = (st, "OK bye".data)) ∧
    (∀ (st : RegState) (lines : List (List Char)),
      ((session st lines).2).length = lines.length) ∧
    (∀ (st : RegState) (rest : List (List Char)),
      session st ("EXIT".data :: rest) =
        ((session st rest).1, "OK bye".data :: (session st rest).2)) := by
  refine ⟨fun st => rfl, ?_, fun st rest => rfl⟩
  intro st lines
  induction lines generalizing st with
  | nil => rfl
  | cons l rest ih => simp [session, ih]

/-- Claim C8: on a registry with distinct names, FREE of a live name is
answered OK and removes the entry, an immediately following second FREE
of the same name is answered ERR not_found, and a subsequent ALLOC of
the same name is answered OK again, so the name is reusable. -/
theorem claim_C8_free_then_realloc :
    ∀ (st st2 : RegState) (name size_s : List Char),
      namesDistinct st → name ≠ [] → ' ' ∉ name → size_s ≠ [] → ' ' ∉ size_s →
      remove_alloc name st = some st2 →
      handleCommand st ("FREE".data ++ ' ' :: name) = (st2, "OK".data) ∧
      find_alloc name st2 = none ∧
      handleCommand st2 ("FREE".data ++ ' ' :: name) = (st2, "ERR not_found".data) ∧
      (handleCommand st2 ("ALLOC".data ++ ' ' :: name ++ ' ' :: size_s)).2 =
        "OK".data := by
  intro st st2 name size_s hnd hn hns hs hss hrm
  have hfind : find_alloc name st2 = none := remove_alloc_find_none name st st2 hnd hrm
  have hrm2 : remove_alloc name st2 = none := by
    rw [remove_alloc_eq_none_iff]
    exact (find_alloc_eq_none_iff name st2).mp hfind
  refine ⟨?_, hfind, ?_, ?_⟩
  · rw [handleCommand_free_line st name hn hns]
    exact handleFree_some st st2 name [] hrm
  · rw [handleCommand_free_line st2 name hn hns]
    exact handleFree_none st2 name [] hrm2
  · rw [handleCommand_alloc_line st2 name size_s hn hns hs hss,
        handleAlloc_fresh st2 name size_s [] hfind]

/-- Witness for claim C8: freeing and re-allocating foo on the registry
holding the single entry foo of size 5. -/
theorem claim_C8_free_then_realloc_witness :
    handleCommand [⟨"foo".data, 5, List.replicate 5 0⟩]
        ("FREE".data ++ ' ' :: "foo".data) = ([], "OK".data) ∧
    find_alloc "foo".data [] = none ∧
    handleCommand [] ("FREE".data ++ ' ' :: "foo".data) =
      ([], "ERR not_found".data) ∧
    (handleCommand [] ("ALLOC".data ++ ' ' :: "foo".data ++ ' ' :: "7".data)).2 =
      "OK".data :=
  claim_C8_free_then_realloc [⟨"foo".data, 5, List.replicate 5 0⟩] [] "foo".data
    "7".data (by decide) (by decide) (by decide) (by decide) (by decide) (by decide)

/-- Claim C9: ALLOC of a fresh name with size 0 is answered OK and
installs a live entry recording size 0 whose buffer holds one byte, the
internal one-byte reservation of the code for zero-size allocations. -/
theorem claim_C9_alloc_zero :
    ∀ (st : RegState) (name : List Char), name ≠ [] → ' ' ∉ name →
      find_alloc name st = none →
      handleCommand st ("ALLOC".data ++ ' ' :: name ++ ' ' :: "0".data) =
        (⟨name, 0, [0]⟩ :: st, "OK".data) ∧
      find_alloc name (⟨name, 0, [0]⟩ :: st) = some ⟨name, 0, [0]⟩ ∧
      (⟨name, 0, [0]⟩ : AllocNode).size = 0 ∧
      1 ≤ (⟨name, 0, [0]⟩ : AllocNode).buf.length := by
  intro st name hn hns hf
  refine ⟨?_, by simp [find_alloc], rfl, by simp⟩
  rw [handleCommand_alloc_line st name "0".data hn hns (by decide) (by decide),
      handleAlloc_fresh st name "0".data [] hf]
  rfl

/-- Witness for claim C9: allocating bar with size 0 in the empty
registry. -/
theorem claim_C9_alloc_zero_witness :
    handleCommand [] ("ALLOC".data ++ ' ' :: "bar".data ++ ' ' :: "0".data) =
      (⟨"bar".data, 0, [0]⟩ :: [], "OK".data) ∧
    find_alloc "bar".data (⟨"bar".data, 0, [0]⟩ :: []) = some ⟨"bar".data, 0, [0]⟩ ∧
    (⟨"bar".data, 0, [0]⟩ : AllocNode).size = 0 ∧
    1 ≤ (⟨"bar".data, 0, [0]⟩ : AllocNode).buf.length :=
  claim_C9_alloc_zero [] "bar".data (by decide) (by decide) (by decide)

/-- Claim C10 counterexample: a request line holding one tab character
consists of whitespace only, yet it is answered ERR unknown_command and
not ERR empty, because the code tokenizes on the space character alone
and the tab survives as a token. -/
theorem claim_C10_counterexample :
    (∀ c ∈ ['\t'], c.isWhitespace) ∧
    handleCommand [] ['\t'] = ([], "ERR unknown_command".data) ∧
    ¬ ("ERR unknown_command".data : List Char) = "ERR empty".data := by
  decide

/-- Claim C10 amended: a request line that is empty or consists only of
space characters is answered ERR empty and leaves the registry
unchanged. -/
theorem claim_C10_empty_line :
    ∀ (st : RegState) (line : List Char), (∀ c ∈ line, c = ' ') →
      handleCommand st line = (st, "ERR empty".data) := by
  intro st line h
  have htok : tokenize line = [] := tokAux_all_spaces line h
  unfold handleCommand
  rw [htok]

/-- Witness for claim C10 amended: the one-space line on the empty
registry. -/
theorem claim_C10_empty_line_witness :
    handleCommand [] [' '] = ([], "ERR empty".data) :=
  claim_C10_empty_line [] [' '] (by decide)

end MallocServer
